import Mathlib

/-!
Verification development for the microlensing visualizer in `src/main.py`.

The computational core of the program is shallowly embedded below:

* `calculate_magnification` mirrors the Python function of the same name
  (lines 24–104): the gate on the planet's distance from the origin, the
  point-to-line projection producing the impact parameter `u`, the
  clamp/formula branch on `u ≤ 0.001`, and the final `max(1.0, ·)` floor.
* `sim_step` / `sim_run` mirror the frame-building loop (lines 107–141),
  which appends one magnification per time step to a growing brightness
  history and stores, per frame, the history slice `[:t+1]`.
* `yaxis_range` mirrors the y-axis range of `fig.update_yaxes` (line 178).

Machine floats are modelled as exact reals.  The field named
`planet_mass` throughout corresponds to the source's planet-to-star mass
slider value (its third sidebar parameter).
-/

/-- A 2D Cartesian point (x, y), used for the star, planet and observer. -/
structure Vec2 where
  x : ℝ
  y : ℝ

/-- Euclidean norm of a 2-vector, `np.linalg.norm`. -/
noncomputable def Vec2.norm (v : Vec2) : ℝ := Real.sqrt (v.x ^ 2 + v.y ^ 2)

/-- Componentwise vector subtraction. -/
def Vec2.sub (a b : Vec2) : Vec2 := ⟨a.x - b.x, a.y - b.y⟩

/-- Componentwise vector addition. -/
def Vec2.add (a b : Vec2) : Vec2 := ⟨a.x + b.x, a.y + b.y⟩

/-- Scalar multiple of a 2-vector. -/
def Vec2.smul (r : ℝ) (v : Vec2) : Vec2 := ⟨r * v.x, r * v.y⟩

/-- Dot product, `np.dot`. -/
def Vec2.dot (a b : Vec2) : ℝ := a.x * b.x + a.y * b.y

/-- `R_STAR` (line 19), visual only. -/
def R_STAR : ℝ := 0.5

/-- `R_ORBIT` (line 20): the planet's orbit radius. -/
def R_ORBIT : ℝ := 5.0

/-- `R_OBSERVER_DIST` (line 21): the observer's distance from the star. -/
def R_OBSERVER_DIST : ℝ := 10.0

/-- The three sidebar slider values of one run (lines 12–14).
`planet_mass` is the planet-to-star mass slider (source line 13). -/
structure SimulationConfig where
  orbital_period : ℕ
  planet_mass : ℝ
  observer_angle_deg : ℝ

/-- The valid parameter ranges stated by the spec and carried by the source's
sliders: period 100–500, mass 0.001–0.1, observer angle in [0, 360). -/
def ValidConfig (cfg : SimulationConfig) : Prop :=
  100 ≤ cfg.orbital_period ∧ cfg.orbital_period ≤ 500 ∧
    0.001 ≤ cfg.planet_mass ∧ cfg.planet_mass ≤ 0.1 ∧
    0 ≤ cfg.observer_angle_deg ∧ cfg.observer_angle_deg < 360

/-- The star is fixed at the origin (line 116). -/
def star_pos : Vec2 := ⟨0, 0⟩

/-- `np.radians`: degrees to radians (line 112). -/
noncomputable def radians (deg : ℝ) : ℝ := deg * Real.pi / 180

/-- The fixed observer position (lines 113–115). -/
noncomputable def observer_pos (cfg : SimulationConfig) : Vec2 :=
  ⟨R_OBSERVER_DIST * Real.cos (radians cfg.observer_angle_deg),
   R_OBSERVER_DIST * Real.sin (radians cfg.observer_angle_deg)⟩

/-- `line_of_sight_vec = star_pos - observer_pos` (line 56). -/
def line_of_sight_vec (observer_p star_p : Vec2) : Vec2 := Vec2.sub star_p observer_p

/-- `line_of_sight_unit` (line 57): the line-of-sight vector divided by its norm. -/
noncomputable def line_of_sight_unit (observer_p star_p : Vec2) : Vec2 :=
  Vec2.smul (1 / Vec2.norm (line_of_sight_vec observer_p star_p))
    (line_of_sight_vec observer_p star_p)

/-- `proj_length` (line 81): component of observer→planet along the line of sight. -/
noncomputable def proj_length (planet_p observer_p star_p : Vec2) : ℝ :=
  Vec2.dot (Vec2.sub planet_p observer_p) (line_of_sight_unit observer_p star_p)

/-- `closest_point_on_los` (line 84): the point of the line of sight closest
to the planet. -/
noncomputable def closest_point_on_los (planet_p observer_p star_p : Vec2) : Vec2 :=
  Vec2.add observer_p
    (Vec2.smul (proj_length planet_p observer_p star_p) (line_of_sight_unit observer_p star_p))

/-- `perpendicular_dist` (line 87): distance from the planet to the line of sight. -/
noncomputable def perpendicular_dist (planet_p observer_p star_p : Vec2) : ℝ :=
  Vec2.norm (Vec2.sub planet_p (closest_point_on_los planet_p observer_p star_p))

/-- `einstein_radius_proxy = R_ORBIT * 0.1` (line 92). -/
def einstein_radius_proxy : ℝ := R_ORBIT * 0.1

/-- `u = perpendicular_dist / einstein_radius_proxy` (line 94). -/
noncomputable def impact_u (planet_p observer_p star_p : Vec2) : ℝ :=
  perpendicular_dist planet_p observer_p star_p / einstein_radius_proxy

/-- The point-source point-lens formula `(u^2 + 2) / (u * sqrt(u^2 + 4))` (line 100). -/
noncomputable def rawMagnification (u : ℝ) : ℝ :=
  (u ^ 2 + 2) / (u * Real.sqrt (u ^ 2 + 4))

/-- `calculate_magnification` (lines 24–104): magnification starts at 1.0, is
replaced inside the gate `‖planet‖ < R_ORBIT * 1.5` by the clamped or rescaled
lensing value, and the result is floored by `max(1.0, ·)`. -/
noncomputable def calculate_magnification (planet_p observer_p star_p : Vec2)
    (planet_mass : ℝ) : ℝ :=
  max 1.0
    (if Vec2.norm planet_p < R_ORBIT * 1.5 then
      if impact_u planet_p observer_p star_p ≤ 0.001 then
        1.0 + planet_mass * 1000
      else
        1.0 + (rawMagnification (impact_u planet_p observer_p star_p) - 1.0)
          * (planet_mass / 0.01)
    else 1.0)

/-- The magnification as a function of the impact parameter `u` alone
(the body of lines 97–104, inside the gate). -/
noncomputable def magnification_of_u (planet_mass u : ℝ) : ℝ :=
  max 1.0
    (if u ≤ 0.001 then 1.0 + planet_mass * 1000
     else 1.0 + (rawMagnification u - 1.0) * (planet_mass / 0.01))

/-- Planet position at time `t` (lines 120–122): circular orbit of radius
`R_ORBIT`, angle `2π t / period`, phase zero on the positive x-axis. -/
noncomputable def planet_position (period t : ℕ) : Vec2 :=
  ⟨R_ORBIT * Real.cos (2 * Real.pi * t / period),
   R_ORBIT * Real.sin (2 * Real.pi * t / period)⟩

/-- The magnification of time step `t` for a given config (lines 125–127). -/
noncomputable def magnification_at (cfg : SimulationConfig) (t : ℕ) : ℝ :=
  calculate_magnification (planet_position cfg.orbital_period t) (observer_pos cfg)
    star_pos cfg.planet_mass

/-- One time step's packaged output (the per-frame dict of lines 131–141):
time index, planet position, magnification, and the brightness history
slice `lightcurve_values[:t+1]` stored in the frame's curve trace. -/
structure FrameSample where
  timeIndex : ℕ
  planetPosition : Vec2
  magnification : ℝ
  cumulativeCurve : List ℝ

/-- One iteration of the loop of lines 118–141: append the new magnification
to the brightness history and append the frame holding the current slice. -/
noncomputable def sim_step (cfg : SimulationConfig) (st : List FrameSample × List ℝ)
    (t : ℕ) : List FrameSample × List ℝ :=
  let m := magnification_at cfg t
  (st.1 ++ [⟨t, planet_position cfg.orbital_period t, m, st.2 ++ [m]⟩], st.2 ++ [m])

/-- The whole loop of lines 118–141, starting from empty buffers. -/
noncomputable def sim_run (cfg : SimulationConfig) : List FrameSample × List ℝ :=
  (List.range cfg.orbital_period).foldl (sim_step cfg) ([], [])

/-- `frames_data` after the loop (line 107 / 131). -/
noncomputable def frames_data (cfg : SimulationConfig) : List FrameSample := (sim_run cfg).1

/-- `lightcurve_values` after the loop (line 108 / 128). -/
noncomputable def lightcurve_values (cfg : SimulationConfig) : List ℝ := (sim_run cfg).2

/-- Closed form of the frame emitted at step `t` (used to characterize the loop). -/
noncomputable def frame_at (cfg : SimulationConfig) (t : ℕ) : FrameSample :=
  ⟨t, planet_position cfg.orbital_period t, magnification_at cfg t,
   (List.range (t + 1)).map (magnification_at cfg)⟩

/-- Python's `min` over a list (line 178); the empty case never arises in the
source, where the list always has `orbital_period ≥ 100` entries (Python would
raise on an empty list). -/
noncomputable def pyMin : List ℝ → ℝ
  | [] => 0
  | x :: xs => xs.foldl min x

/-- Python's `max` over a list (line 178); empty case as in `pyMin`. -/
noncomputable def pyMax : List ℝ → ℝ
  | [] => 0
  | x :: xs => xs.foldl max x

/-- The brightness-axis range set by `fig.update_yaxes` (line 178):
`[min(0.9, min(values) - 0.05), max(1.5, max(values) + 0.05)]`. -/
noncomputable def yaxis_range (cfg : SimulationConfig) : ℝ × ℝ :=
  (min 0.9 (pyMin (lightcurve_values cfg) - 0.05),
   max 1.5 (pyMax (lightcurve_values cfg) + 0.05))

/-- Modelled from the spec's words for comparison with `yaxis_range`: the
lower bound "equal to the minimum magnification minus the 0.05 padding
margin, floored at the reference bound 0.9" (a floor keeps the value from
dropping below 0.9, i.e. `max 0.9 ·`), and the upper bound "ceilinged at the
reference bound 1.5" (kept from exceeding 1.5, i.e. `min 1.5 ·`). -/
noncomputable def yaxis_range_claimed (cfg : SimulationConfig) : ℝ × ℝ :=
  (max 0.9 (pyMin (lightcurve_values cfg) - 0.05),
   min 1.5 (pyMax (lightcurve_values cfg) + 0.05))

/-- Reflection of `p` across the line through the origin (the star) and `o`
(the observer): `2 ((p·o)/(o·o)) o - p`. -/
noncomputable def reflect_across_line (o p : Vec2) : Vec2 :=
  Vec2.sub (Vec2.smul (2 * Vec2.dot p o / Vec2.dot o o) o) p

/-! ## Basic facts about the magnification formula -/

theorem perpendicular_dist_nonneg (p o s : Vec2) : 0 ≤ perpendicular_dist p o s :=
  Real.sqrt_nonneg _

theorem impact_u_nonneg (p o s : Vec2) : 0 ≤ impact_u p o s := by
  rw [impact_u, einstein_radius_proxy, R_ORBIT]
  exact div_nonneg (perpendicular_dist_nonneg p o s) (by norm_num)

theorem sqrt_u_sq_add_four_pos (u : ℝ) : 0 < Real.sqrt (u ^ 2 + 4) :=
  Real.sqrt_pos.mpr (by positivity)

theorem sqrt_u_sq_add_four_sq (u : ℝ) : (Real.sqrt (u ^ 2 + 4)) ^ 2 = u ^ 2 + 4 :=
  Real.sq_sqrt (by positivity)

theorem one_lt_rawMagnification {u : ℝ} (hu : 0 < u) : 1 < rawMagnification u := by
  have hs := sqrt_u_sq_add_four_pos u
  have hq := sqrt_u_sq_add_four_sq u
  set s := Real.sqrt (u ^ 2 + 4) with hsdef
  have hden : 0 < u * s := mul_pos hu hs
  rw [rawMagnification, lt_div_iff hden, one_mul]
  have hkey : (u * s) ^ 2 < (u ^ 2 + 2) ^ 2 := by nlinarith [hq, sq_nonneg u]
  exact lt_of_pow_lt_pow_left 2 (by positivity) hkey

theorem one_le_rawMagnification {u : ℝ} (hu : 0 < u) : 1 ≤ rawMagnification u :=
  (one_lt_rawMagnification hu).le

theorem rawMagnification_antitone {u₁ u₂ : ℝ} (h1 : 0 < u₁) (h12 : u₁ ≤ u₂) :
    rawMagnification u₂ ≤ rawMagnification u₁ := by
  have h2 : 0 < u₂ := lt_of_lt_of_le h1 h12
  have hs1 := sqrt_u_sq_add_four_pos u₁
  have hs2 := sqrt_u_sq_add_four_pos u₂
  have hq1 := sqrt_u_sq_add_four_sq u₁
  have hq2 := sqrt_u_sq_add_four_sq u₂
  set s₁ := Real.sqrt (u₁ ^ 2 + 4) with hs1def
  set s₂ := Real.sqrt (u₂ ^ 2 + 4) with hs2def
  rw [rawMagnification, rawMagnification,
    div_le_div_iff (mul_pos h2 hs2) (mul_pos h1 hs1)]
  have hpoly : (u₂ ^ 2 + 2) ^ 2 * (u₁ ^ 2 * (u₁ ^ 2 + 4)) ≤
      (u₁ ^ 2 + 2) ^ 2 * (u₂ ^ 2 * (u₂ ^ 2 + 4)) := by
    have hprod : 0 ≤ (u₂ ^ 2 - u₁ ^ 2) * (u₁ ^ 2 + u₂ ^ 2 + 4) := by
      apply mul_nonneg
      · nlinarith
      · positivity
    nlinarith [hprod]
  have hkey : ((u₂ ^ 2 + 2) * (u₁ * s₁)) ^ 2 ≤ ((u₁ ^ 2 + 2) * (u₂ * s₂)) ^ 2 :=
    calc ((u₂ ^ 2 + 2) * (u₁ * s₁)) ^ 2
        = (u₂ ^ 2 + 2) ^ 2 * (u₁ ^ 2 * s₁ ^ 2) := by ring
      _ = (u₂ ^ 2 + 2) ^ 2 * (u₁ ^ 2 * (u₁ ^ 2 + 4)) := by rw [hq1]
      _ ≤ (u₁ ^ 2 + 2) ^ 2 * (u₂ ^ 2 * (u₂ ^ 2 + 4)) := hpoly
      _ = (u₁ ^ 2 + 2) ^ 2 * (u₂ ^ 2 * s₂ ^ 2) := by rw [hq2]
      _ = ((u₁ ^ 2 + 2) * (u₂ * s₂)) ^ 2 := by ring
  exact le_of_pow_le_pow_left (by norm_num) (by positivity) hkey

theorem rawMagnification_le_11 {u : ℝ} (h1 : 0.3 ≤ u) (h2 : u ≤ 10) :
    rawMagnification u ≤ 11 := by
  have hu : 0 < u := by linarith
  have hs := sqrt_u_sq_add_four_pos u
  have hq := sqrt_u_sq_add_four_sq u
  set s := Real.sqrt (u ^ 2 + 4) with hsdef
  have hs2 : 2 ≤ s := by
    have h4 : Real.sqrt 4 ≤ s := Real.sqrt_le_sqrt (by nlinarith [sq_nonneg u])
    rwa [show (4 : ℝ) = 2 ^ 2 by norm_num,
      Real.sqrt_sq (by norm_num : (0:ℝ) ≤ 2)] at h4
  rw [rawMagnification, div_le_iff (by positivity)]
  have h22 : u ^ 2 + 2 ≤ 22 * u := by
    nlinarith [mul_nonneg (sub_nonneg.mpr h1) (sub_nonneg.mpr h2)]
  nlinarith [mul_le_mul_of_nonneg_left hs2 hu.le]

theorem calculate_magnification_gate (p o s : Vec2) (m : ℝ)
    (hg : Vec2.norm p < R_ORBIT * 1.5) :
    calculate_magnification p o s m = magnification_of_u m (impact_u p o s) := by
  rw [calculate_magnification, magnification_of_u, if_pos hg]

theorem calculate_magnification_far (p o s : Vec2) (m : ℝ)
    (hg : ¬ Vec2.norm p < R_ORBIT * 1.5) :
    calculate_magnification p o s m = 1 := by
  rw [calculate_magnification, if_neg hg]
  norm_num

theorem one_le_calculate_magnification (p o s : Vec2) (m : ℝ) :
    1 ≤ calculate_magnification p o s m :=
  le_trans (by norm_num) (le_max_left 1.0 _)

theorem planet_position_norm (period t : ℕ) :
    Vec2.norm (planet_position period t) = R_ORBIT := by
  rw [planet_position, Vec2.norm]
  have h := Real.sin_sq_add_cos_sq (2 * Real.pi * t / period)
  have h25 : (R_ORBIT * Real.cos (2 * Real.pi * t / period)) ^ 2 +
      (R_ORBIT * Real.sin (2 * Real.pi * t / period)) ^ 2 = 25 := by
    rw [R_ORBIT]; nlinarith [h]
  rw [show ((⟨R_ORBIT * Real.cos (2 * Real.pi * t / period),
      R_ORBIT * Real.sin (2 * Real.pi * t / period)⟩ : Vec2)).x =
      R_ORBIT * Real.cos (2 * Real.pi * t / period) from rfl]
  rw [show ((⟨R_ORBIT * Real.cos (2 * Real.pi * t / period),
      R_ORBIT * Real.sin (2 * Real.pi * t / period)⟩ : Vec2)).y =
      R_ORBIT * Real.sin (2 * Real.pi * t / period) from rfl]
  rw [h25, show (25 : ℝ) = 5 ^ 2 by norm_num, Real.sqrt_sq (by norm_num : (0:ℝ) ≤ 5),
    R_ORBIT]
  norm_num

/-! ## Characterization of the frame-building loop -/

theorem sim_run_eq (cfg : SimulationConfig) :
    sim_run cfg = ((List.range cfg.orbital_period).map (frame_at cfg),
      (List.range cfg.orbital_period).map (magnification_at cfg)) := by
  rw [sim_run]
  induction cfg.orbital_period with
  | zero => simp
  | succ n ih =>
      rw [List.range_succ, List.foldl_append, ih]
      simp [sim_step, frame_at, List.range_succ]

theorem frames_data_eq (cfg : SimulationConfig) :
    frames_data cfg = (List.range cfg.orbital_period).map (frame_at cfg) := by
  rw [frames_data, sim_run_eq]

theorem lightcurve_values_eq (cfg : SimulationConfig) :
    lightcurve_values cfg = (List.range cfg.orbital_period).map (magnification_at cfg) := by
  rw [lightcurve_values, sim_run_eq]

theorem frames_data_length (cfg : SimulationConfig) :
    (frames_data cfg).length = cfg.orbital_period := by
  rw [frames_data_eq]; simp

theorem lightcurve_values_length (cfg : SimulationConfig) :
    (lightcurve_values cfg).length = cfg.orbital_period := by
  rw [lightcurve_values_eq]; simp

theorem frames_data_get (cfg : SimulationConfig) (t : ℕ)
    (h : t < (frames_data cfg).length) :
    (frames_data cfg).get ⟨t, h⟩ = frame_at cfg t := by
  have h2 : t < cfg.orbital_period := by rwa [frames_data_length] at h
  simp only [List.get_eq_getElem, frames_data_eq, List.getElem_map, List.getElem_range]

/-! ## Python min / max over lists -/

theorem seed_le_foldl_max (xs : List ℝ) : ∀ a : ℝ, a ≤ xs.foldl max a := by
  induction xs with
  | nil => intro a; simp
  | cons y ys ih =>
      intro a
      rw [List.foldl_cons]
      exact le_trans (le_max_left a y) (ih (max a y))

theorem mem_le_foldl_max (xs : List ℝ) : ∀ (a x : ℝ), x ∈ xs → x ≤ xs.foldl max a := by
  induction xs with
  | nil => intro a x hx; simp at hx
  | cons y ys ih =>
      intro a x hx
      rw [List.foldl_cons]
      rcases List.mem_cons.mp hx with h | h
      · rw [h]
        exact le_trans (le_max_right a y) (seed_le_foldl_max ys (max a y))
      · exact ih (max a y) x h

theorem le_pyMax (l : List ℝ) (x : ℝ) (hx : x ∈ l) : x ≤ pyMax l := by
  cases l with
  | nil => simp at hx
  | cons a xs =>
      rw [pyMax]
      rcases List.mem_cons.mp hx with h | h
      · rw [h]; exact seed_le_foldl_max xs a
      · exact mem_le_foldl_max xs a x h

theorem foldl_max_mem (xs : List ℝ) : ∀ a : ℝ, xs.foldl max a ∈ a :: xs := by
  induction xs with
  | nil => intro a; simp
  | cons y ys ih =>
      intro a
      rw [List.foldl_cons]
      have h := ih (max a y)
      rcases List.mem_cons.mp h with h1 | h1
      · rw [h1]
        rcases max_choice a y with h2 | h2 <;> rw [h2] <;> simp
      · simp [h1]

theorem pyMax_mem (l : List ℝ) (h : l ≠ []) : pyMax l ∈ l := by
  cases l with
  | nil => exact absurd rfl h
  | cons a xs =>
      rw [pyMax]
      exact foldl_max_mem xs a

theorem le_foldl_min (xs : List ℝ) : ∀ (a c : ℝ), c ≤ a → (∀ x ∈ xs, c ≤ x) →
    c ≤ xs.foldl min a := by
  induction xs with
  | nil => intro a c hca _; simpa using hca
  | cons y ys ih =>
      intro a c hca hall
      rw [List.foldl_cons]
      exact ih (min a y) c (le_min hca (hall y (by simp)))
        (fun x hx => hall x (by simp [hx]))

theorem le_pyMin (l : List ℝ) (c : ℝ) (hall : ∀ x ∈ l, c ≤ x) (hne : l ≠ []) :
    c ≤ pyMin l := by
  cases l with
  | nil => exact absurd rfl hne
  | cons a xs =>
      rw [pyMin]
      exact le_foldl_min xs a c (hall a (by simp)) (fun x hx => hall x (by simp [hx]))

theorem one_le_pyMin_lightcurve (cfg : SimulationConfig) (h : cfg.orbital_period ≠ 0) :
    1 ≤ pyMin (lightcurve_values cfg) := by
  apply le_pyMin
  · intro x hx
    rw [lightcurve_values_eq] at hx
    obtain ⟨t, _, rfl⟩ := List.mem_map.mp hx
    exact one_le_calculate_magnification _ _ _ _
  · rw [lightcurve_values_eq]
    simp [h]

/-! ## Closed form of the projection-based impact parameter -/

theorem obs_sq_pos {o : Vec2} (ho : o.x ≠ 0 ∨ o.y ≠ 0) : 0 < o.x ^ 2 + o.y ^ 2 := by
  rcases ho with h | h
  · have h1 : 0 < |o.x| := abs_pos.mpr h
    nlinarith [sq_abs o.x, mul_pos h1 h1, sq_nonneg o.y]
  · have h1 : 0 < |o.y| := abs_pos.mpr h
    nlinarith [sq_abs o.y, mul_pos h1 h1, sq_nonneg o.x]

theorem los_norm_eq (o : Vec2) :
    Vec2.norm (line_of_sight_vec o star_pos) = Real.sqrt (o.x ^ 2 + o.y ^ 2) := by
  rw [line_of_sight_vec, star_pos, Vec2.sub, Vec2.norm]
  congr 1
  show (0 - o.x) ^ 2 + (0 - o.y) ^ 2 = o.x ^ 2 + o.y ^ 2
  ring

theorem los_unit_eq (o : Vec2) :
    line_of_sight_unit o star_pos =
      ⟨-o.x / Real.sqrt (o.x ^ 2 + o.y ^ 2), -o.y / Real.sqrt (o.x ^ 2 + o.y ^ 2)⟩ := by
  rw [line_of_sight_unit, los_norm_eq, line_of_sight_vec, star_pos, Vec2.sub, Vec2.smul]
  show (⟨1 / Real.sqrt (o.x ^ 2 + o.y ^ 2) * (0 - o.x),
      1 / Real.sqrt (o.x ^ 2 + o.y ^ 2) * (0 - o.y)⟩ : Vec2) = _
  simp only [Vec2.mk.injEq]
  constructor <;> ring

theorem closest_point_eq (p o : Vec2) (ho : o.x ≠ 0 ∨ o.y ≠ 0) :
    closest_point_on_los p o star_pos =
      ⟨(p.x * o.x + p.y * o.y) * o.x / (o.x ^ 2 + o.y ^ 2),
       (p.x * o.x + p.y * o.y) * o.y / (o.x ^ 2 + o.y ^ 2)⟩ := by
  have hq := obs_sq_pos ho
  have hq0 : o.x ^ 2 + o.y ^ 2 ≠ 0 := ne_of_gt hq
  have hs2 : Real.sqrt (o.x ^ 2 + o.y ^ 2) ^ 2 = o.x ^ 2 + o.y ^ 2 := Real.sq_sqrt hq.le
  set s := Real.sqrt (o.x ^ 2 + o.y ^ 2) with hsdef
  have hs0 : s ≠ 0 := by
    intro h0
    rw [h0] at hs2
    norm_num at hs2
    exact hq0 hs2.symm
  have hproj : proj_length p o star_pos =
      ((p.x - o.x) * (-o.x) + (p.y - o.y) * (-o.y)) / s := by
    rw [proj_length, los_unit_eq, Vec2.sub, Vec2.dot]
    show (p.x - o.x) * (-o.x / s) + (p.y - o.y) * (-o.y / s) = _
    ring
  rw [closest_point_on_los, hproj, los_unit_eq, Vec2.smul, Vec2.add]
  show (⟨o.x + ((p.x - o.x) * (-o.x) + (p.y - o.y) * (-o.y)) / s * (-o.x / s),
      o.y + ((p.x - o.x) * (-o.x) + (p.y - o.y) * (-o.y)) / s * (-o.y / s)⟩ : Vec2) = _
  simp only [Vec2.mk.injEq]
  have hss : s * s = o.x ^ 2 + o.y ^ 2 := by nlinarith [hs2]
  constructor
  · rw [div_mul_div_comm, hss]
    field_simp
    ring
  · rw [div_mul_div_comm, hss]
    field_simp
    ring

theorem perpendicular_dist_sq (p o : Vec2) (ho : o.x ≠ 0 ∨ o.y ≠ 0) :
    perpendicular_dist p o star_pos ^ 2 =
      (p.x * o.y - p.y * o.x) ^ 2 / (o.x ^ 2 + o.y ^ 2) := by
  have hq := obs_sq_pos ho
  have hq0 : o.x ^ 2 + o.y ^ 2 ≠ 0 := ne_of_gt hq
  rw [perpendicular_dist, closest_point_eq p o ho, Vec2.sub, Vec2.norm]
  rw [Real.sq_sqrt (by positivity)]
  show (p.x - (p.x * o.x + p.y * o.y) * o.x / (o.x ^ 2 + o.y ^ 2)) ^ 2 +
      (p.y - (p.x * o.x + p.y * o.y) * o.y / (o.x ^ 2 + o.y ^ 2)) ^ 2 = _
  field_simp
  ring

theorem perpendicular_dist_eq (p o : Vec2) (ho : o.x ≠ 0 ∨ o.y ≠ 0) :
    perpendicular_dist p o star_pos =
      Real.sqrt ((p.x * o.y - p.y * o.x) ^ 2 / (o.x ^ 2 + o.y ^ 2)) := by
  rw [← perpendicular_dist_sq p o ho,
    Real.sqrt_sq (perpendicular_dist_nonneg p o star_pos)]

/-! ## Reflection across the observer-star line -/

theorem reflect_norm_sq (o p : Vec2) (ho : o.x ≠ 0 ∨ o.y ≠ 0) :
    (reflect_across_line o p).x ^ 2 + (reflect_across_line o p).y ^ 2 =
      p.x ^ 2 + p.y ^ 2 := by
  have hq := obs_sq_pos ho
  have hq0 : o.x * o.x + o.y * o.y ≠ 0 := by nlinarith [hq]
  rw [reflect_across_line]
  simp only [Vec2.sub, Vec2.smul, Vec2.dot]
  field_simp
  ring

theorem reflect_cross_sq (o p : Vec2) (ho : o.x ≠ 0 ∨ o.y ≠ 0) :
    ((reflect_across_line o p).x * o.y - (reflect_across_line o p).y * o.x) ^ 2 =
      (p.x * o.y - p.y * o.x) ^ 2 := by
  have hq := obs_sq_pos ho
  have hq0 : o.x * o.x + o.y * o.y ≠ 0 := by nlinarith [hq]
  rw [reflect_across_line]
  simp only [Vec2.sub, Vec2.smul, Vec2.dot]
  field_simp
  ring

theorem reflect_symmetry (o p : Vec2) (m : ℝ) (ho : o.x ≠ 0 ∨ o.y ≠ 0) :
    calculate_magnification (reflect_across_line o p) o star_pos m =
      calculate_magnification p o star_pos m := by
  have hnorm : Vec2.norm (reflect_across_line o p) = Vec2.norm p := by
    rw [Vec2.norm, Vec2.norm, reflect_norm_sq o p ho]
  have hperp : perpendicular_dist (reflect_across_line o p) o star_pos =
      perpendicular_dist p o star_pos := by
    rw [perpendicular_dist_eq _ _ ho, perpendicular_dist_eq _ _ ho,
      reflect_cross_sq o p ho]
  have hu : impact_u (reflect_across_line o p) o star_pos = impact_u p o star_pos := by
    rw [impact_u, impact_u, hperp]
  rw [calculate_magnification, calculate_magnification, hnorm, hu]

/-! ## Evaluation for the observer at 90 degrees -/

theorem observer_pos_90 (P : ℕ) (m : ℝ) :
    observer_pos ⟨P, m, 90⟩ = ⟨0, 10⟩ := by
  show (⟨R_OBSERVER_DIST * Real.cos (radians 90),
      R_OBSERVER_DIST * Real.sin (radians 90)⟩ : Vec2) = _
  rw [radians, show (90 : ℝ) * Real.pi / 180 = Real.pi / 2 by ring,
    Real.cos_pi_div_two, Real.sin_pi_div_two, R_OBSERVER_DIST]
  simp only [Vec2.mk.injEq]
  norm_num

theorem impact_u_90 (p : Vec2) : impact_u p ⟨0, 10⟩ star_pos = |p.x| / 0.5 := by
  rw [impact_u, perpendicular_dist_eq p ⟨0, 10⟩ (Or.inr (by norm_num))]
  have harg : ((p.x * ((⟨0, 10⟩ : Vec2)).y - p.y * ((⟨0, 10⟩ : Vec2)).x) ^ 2 /
      (((⟨0, 10⟩ : Vec2)).x ^ 2 + ((⟨0, 10⟩ : Vec2)).y ^ 2)) = p.x ^ 2 := by
    show (p.x * 10 - p.y * 0) ^ 2 / ((0 : ℝ) ^ 2 + 10 ^ 2) = p.x ^ 2
    ring
  rw [harg, Real.sqrt_sq_eq_abs, einstein_radius_proxy, R_ORBIT]
  norm_num

theorem magnification_at_90 (P : ℕ) (m : ℝ) (t : ℕ) :
    magnification_at ⟨P, m, 90⟩ t =
      magnification_of_u m (|Real.cos (2 * Real.pi * t / P)| * 10) := by
  show calculate_magnification (planet_position P t) (observer_pos ⟨P, m, 90⟩) star_pos m = _
  rw [observer_pos_90]
  have hg : Vec2.norm (planet_position P t) < R_ORBIT * 1.5 := by
    rw [planet_position_norm, R_ORBIT]; norm_num
  rw [calculate_magnification_gate _ _ _ _ hg]
  congr 1
  rw [impact_u_90]
  show |R_ORBIT * Real.cos (2 * Real.pi * t / P)| / 0.5 = _
  rw [R_ORBIT, abs_mul, abs_of_pos (by norm_num : (0:ℝ) < 5.0)]
  ring

/-! ## Discrete lower bound on the cosine at integer time steps -/

theorem sin_pi_div_100_ge : (0.03 : ℝ) ≤ Real.sin (Real.pi / 100) := by
  have h4 := Real.pi_gt_d4
  have h2 := Real.pi_lt_d2
  have hx0 : 0 < Real.pi / 100 := by linarith
  have hx1 : Real.pi / 100 ≤ 1 := by linarith
  have h := Real.sin_gt_sub_cube hx0 hx1
  have hcube : (Real.pi / 100) ^ 3 ≤ (0.0315 : ℝ) ^ 3 :=
    pow_le_pow_left hx0.le (by linarith) 3
  nlinarith [hcube]

theorem sin_mono_nat {m : ℕ} (h1 : 1 ≤ m) (h50 : m ≤ 50) :
    Real.sin (Real.pi / 100) ≤ Real.sin (Real.pi * m / 100) := by
  have hpi := Real.pi_pos
  have hm1 : (1 : ℝ) ≤ (m : ℝ) := by exact_mod_cast h1
  have hm50 : (m : ℝ) ≤ 50 := by exact_mod_cast h50
  apply Real.strictMonoOn_sin.monotoneOn
    (Set.mem_Icc.mpr ⟨by nlinarith, by nlinarith⟩)
    (Set.mem_Icc.mpr ⟨by nlinarith, by nlinarith⟩)
    (by nlinarith)

theorem sin_ge_nat {m : ℕ} (h1 : 1 ≤ m) (h99 : m ≤ 99) :
    Real.sin (Real.pi / 100) ≤ Real.sin (Real.pi * m / 100) := by
  rcases le_or_lt m 50 with h | h
  · exact sin_mono_nat h1 h
  · have hcast : ((100 - m : ℕ) : ℝ) = 100 - (m : ℝ) := by
      rw [Nat.cast_sub (by omega)]
      norm_num
    have hm : Real.pi * m / 100 = Real.pi - Real.pi * ((100 - m : ℕ) : ℝ) / 100 := by
      rw [hcast]; ring
    rw [hm, Real.sin_pi_sub]
    exact sin_mono_nat (by omega) (by omega)

theorem abs_cos_ge_aux (t : ℕ) (h149 : t ≤ 149) (h50 : t ≠ 50) :
    Real.sin (Real.pi / 100) ≤ |Real.cos (Real.pi * t / 100)| := by
  rcases Nat.lt_or_ge t 50 with h | h
  · have hcast : ((50 - t : ℕ) : ℝ) = 50 - (t : ℝ) := by
      rw [Nat.cast_sub (by omega)]
      norm_num
    have hid : Real.cos (Real.pi * t / 100) =
        Real.sin (Real.pi * ((50 - t : ℕ) : ℝ) / 100) := by
      rw [hcast, show Real.pi * ((50 : ℝ) - t) / 100 = Real.pi / 2 - Real.pi * t / 100
        by ring, Real.sin_pi_div_two_sub]
    rw [hid]
    exact le_trans (sin_ge_nat (by omega) (by omega)) (le_abs_self _)
  · have h51 : 51 ≤ t := by omega
    have hcast : ((t - 50 : ℕ) : ℝ) = (t : ℝ) - 50 := by
      rw [Nat.cast_sub (by omega)]
      norm_num
    have hid : Real.cos (Real.pi * t / 100) =
        Real.sin (-(Real.pi * ((t - 50 : ℕ) : ℝ) / 100)) := by
      rw [hcast, show -(Real.pi * ((t : ℝ) - 50) / 100) =
        Real.pi / 2 - Real.pi * t / 100 by ring, Real.sin_pi_div_two_sub]
    rw [hid, Real.sin_neg, abs_neg]
    exact le_trans (sin_ge_nat (by omega) (by omega)) (le_abs_self _)

theorem abs_cos_ge (t : ℕ) (h200 : t < 200) (h50 : t ≠ 50) (h150 : t ≠ 150) :
    Real.sin (Real.pi / 100) ≤ |Real.cos (Real.pi * t / 100)| := by
  rcases le_or_lt t 149 with h | h
  · exact abs_cos_ge_aux t h h50
  · have h151 : 151 ≤ t := by omega
    have hcast : ((200 - t : ℕ) : ℝ) = 200 - (t : ℝ) := by
      rw [Nat.cast_sub (by omega)]
      norm_num
    have hid : Real.cos (Real.pi * t / 100) =
        Real.cos (Real.pi * ((200 - t : ℕ) : ℝ) / 100) := by
      rw [hcast, show Real.pi * ((200 : ℝ) - t) / 100 =
        2 * Real.pi - Real.pi * t / 100 by ring, Real.cos_two_pi_sub]
    rw [hid]
    exact abs_cos_ge_aux (200 - t) (by omega) (by omega)

/-! ## The default run: period 200, mass 0.01, observer at 90 degrees -/

theorem magnification_of_u_le_11 (u : ℝ) (h : u = 0 ∨ (0.3 ≤ u ∧ u ≤ 10)) :
    magnification_of_u 0.01 u ≤ 11 := by
  rcases h with h | ⟨h1, h2⟩
  · rw [h, magnification_of_u, if_pos (by norm_num : (0:ℝ) ≤ 0.001)]
    apply max_le <;> norm_num
  · rw [magnification_of_u, if_neg (by intro hc; linarith)]
    apply max_le
    · norm_num
    · have hr := rawMagnification_le_11 h1 h2
      have hone : (0.01 : ℝ) / 0.01 = 1 := by norm_num
      rw [hone, mul_one]
      linarith

theorem mag_default_50 : magnification_at ⟨200, 0.01, 90⟩ 50 = 11 := by
  rw [magnification_at_90]
  push_cast
  rw [show 2 * Real.pi * (50 : ℝ) / 200 = Real.pi / 2 by ring,
    Real.cos_pi_div_two, abs_zero, zero_mul, magnification_of_u,
    if_pos (by norm_num : (0:ℝ) ≤ 0.001), max_eq_right (by norm_num)]
  norm_num

theorem mag_default_150 : magnification_at ⟨200, 0.01, 90⟩ 150 = 11 := by
  rw [magnification_at_90]
  push_cast
  rw [show 2 * Real.pi * (150 : ℝ) / 200 = Real.pi + Real.pi / 2 by ring,
    Real.cos_add, Real.cos_pi, Real.sin_pi, Real.cos_pi_div_two,
    Real.sin_pi_div_two]
  rw [show (-1 : ℝ) * 0 - 0 * 1 = 0 by ring, abs_zero, zero_mul, magnification_of_u,
    if_pos (by norm_num : (0:ℝ) ≤ 0.001), max_eq_right (by norm_num)]
  norm_num

theorem mag_default_le (t : ℕ) (ht : t < 200) :
    magnification_at ⟨200, 0.01, 90⟩ t ≤ 11 := by
  rw [magnification_at_90]
  apply magnification_of_u_le_11
  have hang : 2 * Real.pi * ((t : ℕ) : ℝ) / ((200 : ℕ) : ℝ) = Real.pi * t / 100 := by
    push_cast
    ring
  rw [hang]
  by_cases h50 : t = 50
  · left
    rw [h50, show Real.pi * ((50 : ℕ) : ℝ) / 100 = Real.pi / 2 by push_cast; ring,
      Real.cos_pi_div_two, abs_zero, zero_mul]
  by_cases h150 : t = 150
  · left
    rw [h150, show Real.pi * ((150 : ℕ) : ℝ) / 100 = Real.pi + Real.pi / 2
      by push_cast; ring, Real.cos_add, Real.cos_pi, Real.sin_pi, Real.cos_pi_div_two,
      Real.sin_pi_div_two, show (-1 : ℝ) * 0 - 0 * 1 = 0 by ring, abs_zero, zero_mul]
  · right
    have hb := abs_cos_ge t ht h50 h150
    have hsin := sin_pi_div_100_ge
    constructor
    · nlinarith
    · have habs := Real.abs_cos_le_one (Real.pi * t / 100)
      nlinarith

/-! ## Monotonicity in the planet mass -/

theorem calculate_magnification_mono_mass (p o s : Vec2) {m₁ m₂ : ℝ}
    (h0 : 0 ≤ m₁) (h12 : m₁ ≤ m₂) :
    calculate_magnification p o s m₁ ≤ calculate_magnification p o s m₂ := by
  rw [calculate_magnification, calculate_magnification]
  apply max_le_max le_rfl
  by_cases hg : Vec2.norm p < R_ORBIT * 1.5
  · rw [if_pos hg, if_pos hg]
    by_cases hu : impact_u p o s ≤ 0.001
    · rw [if_pos hu, if_pos hu]
      nlinarith
    · rw [if_neg hu, if_neg hu]
      push_neg at hu
      have hraw : 1 ≤ rawMagnification (impact_u p o s) :=
        one_le_rawMagnification (lt_trans (by norm_num) hu)
      have hm : m₁ / 0.01 ≤ m₂ / 0.01 :=
        (div_le_div_right (by norm_num)).mpr h12
      have hc : 0 ≤ rawMagnification (impact_u p o s) - 1.0 := by
        simp only [show (1.0 : ℝ) = 1 by norm_num]
        linarith
      nlinarith [mul_le_mul_of_nonneg_left hm hc]
  · rw [if_neg hg, if_neg hg]

theorem magnification_at_mass_lt (P : ℕ) (α : ℝ) (t : ℕ) :
    magnification_at ⟨P, 0.001, α⟩ t < magnification_at ⟨P, 0.1, α⟩ t := by
  have hobs : observer_pos ⟨P, 0.001, α⟩ = observer_pos ⟨P, 0.1, α⟩ := rfl
  show calculate_magnification (planet_position P t) (observer_pos ⟨P, 0.001, α⟩)
      star_pos 0.001 < calculate_magnification (planet_position P t)
      (observer_pos ⟨P, 0.1, α⟩) star_pos 0.1
  rw [hobs]
  set p := planet_position P t
  set o := observer_pos ⟨P, 0.1, α⟩
  have hg : Vec2.norm p < R_ORBIT * 1.5 := by
    rw [planet_position_norm, R_ORBIT]; norm_num
  rw [calculate_magnification_gate _ _ _ _ hg, calculate_magnification_gate _ _ _ _ hg,
    magnification_of_u, magnification_of_u]
  by_cases hu : impact_u p o star_pos ≤ 0.001
  · rw [if_pos hu, if_pos hu]
    rw [max_eq_right (by norm_num), max_eq_right (by norm_num)]
    norm_num
  · rw [if_neg hu, if_neg hu]
    push_neg at hu
    have hraw := one_lt_rawMagnification (lt_trans (by norm_num) hu)
    set r := rawMagnification (impact_u p o star_pos)
    rw [max_eq_right (by nlinarith), max_eq_right (by nlinarith)]
    nlinarith

theorem pyMax_lightcurve_strict (P : ℕ) (α : ℝ) (hP : 0 < P) :
    pyMax (lightcurve_values ⟨P, 0.001, α⟩) < pyMax (lightcurve_values ⟨P, 0.1, α⟩) := by
  have h1 := lightcurve_values_eq ⟨P, 0.001, α⟩
  have h2 := lightcurve_values_eq ⟨P, 0.1, α⟩
  have hne : lightcurve_values ⟨P, 0.001, α⟩ ≠ [] := by
    rw [h1]
    simp only [ne_eq, List.map_eq_nil_iff, List.range_eq_nil]
    omega
  have hmem := pyMax_mem _ hne
  rw [h1] at hmem
  obtain ⟨t, ht, hval⟩ := List.mem_map.mp hmem
  calc pyMax (lightcurve_values ⟨P, 0.001, α⟩)
      = magnification_at ⟨P, 0.001, α⟩ t := by rw [h1]; exact hval.symm
    _ < magnification_at ⟨P, 0.1, α⟩ t := magnification_at_mass_lt P α t
    _ ≤ pyMax (lightcurve_values ⟨P, 0.1, α⟩) :=
        le_pyMax _ _ (by rw [h2]; exact List.mem_map_of_mem _ ht)

/-! ## Claim theorems -/

/-- C1: the magnification policy of `calculate_magnification`: outside the gate
(planet at distance `≥ R_ORBIT * 1.5` from the origin) the magnification is
exactly 1; inside the gate, when the normalized impact parameter is at most the
epsilon 0.001 the magnification is clamped to `1 + planet_mass * 1000`; and
otherwise it is the raw point-lens value rescaled by `planet_mass / 0.01`.
Moreover every time step's magnification is computed by exactly this function
on the planet's orbital position, the fixed observer, and the star at the
origin. -/
theorem magnification_policy :
    (∀ (p o s : Vec2) (m : ℝ), 0 ≤ m →
        (¬ Vec2.norm p < R_ORBIT * 1.5 → calculate_magnification p o s m = 1) ∧
        (Vec2.norm p < R_ORBIT * 1.5 → impact_u p o s ≤ 0.001 →
          calculate_magnification p o s m = 1 + m * 1000) ∧
        (Vec2.norm p < R_ORBIT * 1.5 → 0.001 < impact_u p o s →
          calculate_magnification p o s m =
            1 + (rawMagnification (impact_u p o s) - 1) * (m / 0.01))) ∧
      ∀ (cfg : SimulationConfig) (t : ℕ),
        magnification_at cfg t =
          calculate_magnification (planet_position cfg.orbital_period t)
            (observer_pos cfg) star_pos cfg.planet_mass := by
  constructor
  · intro p o s m hm
    refine ⟨?_, ?_, ?_⟩
    · intro hg
      exact calculate_magnification_far p o s m hg
    · intro hg hu
      rw [calculate_magnification, if_pos hg, if_pos hu,
        max_eq_right (by nlinarith)]
      norm_num
    · intro hg hu
      have hraw : 1 ≤ rawMagnification (impact_u p o s) :=
        one_le_rawMagnification (lt_trans (by norm_num) hu)
      have hc : 0 ≤ m / 0.01 := div_nonneg hm (by norm_num)
      rw [calculate_magnification, if_pos hg, if_neg (not_le.mpr hu),
        max_eq_right (by nlinarith [mul_nonneg (by linarith :
          (0:ℝ) ≤ rawMagnification (impact_u p o s) - 1) hc])]
      norm_num
  · intro cfg t
    rfl

/-- Witness for C1: a planet at distance 9 from the origin fails the gate, so
its magnification is exactly 1. -/
theorem magnification_policy_witness :
    (0 : ℝ) ≤ 0.01 ∧ calculate_magnification ⟨9, 0⟩ ⟨0, 10⟩ star_pos 0.01 = 1 := by
  refine ⟨by norm_num, ?_⟩
  have h9 : Vec2.norm ⟨9, 0⟩ = 9 := by
    rw [Vec2.norm]
    show Real.sqrt ((9:ℝ) ^ 2 + 0 ^ 2) = 9
    rw [show (9:ℝ) ^ 2 + 0 ^ 2 = 9 ^ 2 by ring,
      Real.sqrt_sq (by norm_num : (0:ℝ) ≤ 9)]
  exact (magnification_policy.1 ⟨9, 0⟩ ⟨0, 10⟩ star_pos 0.01 (by norm_num)).1
    (by rw [h9, R_ORBIT]; norm_num)

/-- C2: for every valid config and time index in range, the magnification of
that time step is at least 1 (the `max(1.0, ·)` floor of line 104). -/
theorem magnification_ge_one (cfg : SimulationConfig) (t : ℕ) (hv : ValidConfig cfg)
    (ht : t < cfg.orbital_period) : 1 ≤ magnification_at cfg t :=
  one_le_calculate_magnification _ _ _ _

/-- Witness for C2 at the default config and time 0. -/
theorem magnification_ge_one_witness :
    ValidConfig ⟨200, 0.01, 90⟩ ∧ 0 < 200 ∧ 1 ≤ magnification_at ⟨200, 0.01, 90⟩ 0 :=
  ⟨by norm_num [ValidConfig], by norm_num,
    magnification_ge_one ⟨200, 0.01, 90⟩ 0 (by norm_num [ValidConfig]) (by norm_num)⟩

/-- C3 (counterexample): the magnification is NOT monotonically non-increasing
in `u` across the epsilon-clamp boundary: at `u = 0.001` the clamp gives
`1 + 0.01 * 1000 = 11`, while at the larger `u = 0.002` the formula branch
gives `rawMagnification 0.002 > 11`. -/
theorem magnification_u_monotone_counterexample :
    (0.001 : ℝ) ≤ 0.002 ∧
      magnification_of_u 0.01 0.001 < magnification_of_u 0.01 0.002 := by
  refine ⟨by norm_num, ?_⟩
  have h1 : magnification_of_u 0.01 0.001 = 11 := by
    rw [magnification_of_u, if_pos le_rfl, max_eq_right (by norm_num)]
    norm_num
  have hs0 := sqrt_u_sq_add_four_pos (0.002 : ℝ)
  have hq := sqrt_u_sq_add_four_sq (0.002 : ℝ)
  set s := Real.sqrt ((0.002 : ℝ) ^ 2 + 4) with hsdef
  have hlt : s < 2.1 := by nlinarith [sq_nonneg (s - 2.1)]
  have hkey : (11 : ℝ) < rawMagnification 0.002 := by
    rw [rawMagnification, lt_div_iff (by positivity)]
    rw [← hsdef]
    nlinarith
  have hr1 : 1 ≤ rawMagnification 0.002 := one_le_rawMagnification (by norm_num)
  have h2 : magnification_of_u 0.01 0.002 = rawMagnification 0.002 := by
    rw [magnification_of_u, if_neg (by norm_num),
      show (0.01 : ℝ) / 0.01 = 1 by norm_num, mul_one,
      max_eq_right (by nlinarith)]
    ring
  rw [h1, h2]
  exact hkey

/-- C3 (amended): away from the clamp, i.e. on `u > 0.001`, the magnification
is monotonically non-increasing in the impact parameter for a fixed
nonnegative mass; only the epsilon-clamp at `u ≤ 0.001` breaks global
monotonicity. -/
theorem magnification_u_antitone_beyond_clamp (m u₁ u₂ : ℝ) (hm : 0 ≤ m)
    (h1 : 0.001 < u₁) (h12 : u₁ ≤ u₂) :
    magnification_of_u m u₂ ≤ magnification_of_u m u₁ := by
  have h2 : 0.001 < u₂ := lt_of_lt_of_le h1 h12
  rw [magnification_of_u, magnification_of_u, if_neg (not_le.mpr h2),
    if_neg (not_le.mpr h1)]
  apply max_le_max le_rfl
  have hr := rawMagnification_antitone (lt_trans (by norm_num) h1) h12
  have hc : 0 ≤ m / 0.01 := div_nonneg hm (by norm_num)
  nlinarith [mul_le_mul_of_nonneg_right hr hc]

/-- Witness for the amended C3 at `m = 0.01`, `u₁ = 1`, `u₂ = 2`. -/
theorem magnification_u_antitone_beyond_clamp_witness :
    (0 : ℝ) ≤ 0.01 ∧ (0.001 : ℝ) < 1 ∧ (1 : ℝ) ≤ 2 ∧
      magnification_of_u 0.01 2 ≤ magnification_of_u 0.01 1 :=
  ⟨by norm_num, by norm_num, by norm_num,
    magnification_u_antitone_beyond_clamp 0.01 1 2 (by norm_num) (by norm_num)
      (by norm_num)⟩

/-- C4: for the default config (period 200, mass 0.01, observer at 90 degrees)
the magnification at time index 50 belongs to the run's brightness series and
bounds every value of the series, i.e. it is the maximum of the run. -/
theorem peak_at_quarter_orbit :
    magnification_at ⟨200, 0.01, 90⟩ 50 ∈ lightcurve_values ⟨200, 0.01, 90⟩ ∧
      ∀ x ∈ lightcurve_values ⟨200, 0.01, 90⟩,
        x ≤ magnification_at ⟨200, 0.01, 90⟩ 50 := by
  constructor
  · rw [lightcurve_values_eq]
    exact List.mem_map_of_mem _ (List.mem_range.mpr (by norm_num))
  · intro x hx
    rw [lightcurve_values_eq] at hx
    obtain ⟨t, ht, rfl⟩ := List.mem_map.mp hx
    rw [mag_default_50]
    exact mag_default_le t (List.mem_range.mp ht)

/-- Witness for C4: the time-0 value is in the series and bounded by the
time-50 value. -/
theorem peak_at_quarter_orbit_witness :
    magnification_at ⟨200, 0.01, 90⟩ 0 ∈ lightcurve_values ⟨200, 0.01, 90⟩ ∧
      magnification_at ⟨200, 0.01, 90⟩ 0 ≤ magnification_at ⟨200, 0.01, 90⟩ 50 := by
  have hmem : magnification_at ⟨200, 0.01, 90⟩ 0 ∈ lightcurve_values ⟨200, 0.01, 90⟩ := by
    rw [lightcurve_values_eq]
    exact List.mem_map_of_mem _ (List.mem_range.mpr (by norm_num))
  exact ⟨hmem, peak_at_quarter_orbit.2 _ hmem⟩

/-- C5: for every valid config the frame sequence has exactly one frame per
time index of `[0, orbitalPeriod)`, in order; the cumulative brightness curve
of frame `t` has length `t + 1`; and the curve of frame `t + 1` is the curve
of frame `t` with exactly that frame's magnification appended. -/
theorem frame_sequence_invariants (cfg : SimulationConfig) (hv : ValidConfig cfg) :
    (frames_data cfg).length = cfg.orbital_period ∧
      (∀ (t : ℕ) (h : t < (frames_data cfg).length),
        ((frames_data cfg).get ⟨t, h⟩).timeIndex = t ∧
          ((frames_data cfg).get ⟨t, h⟩).cumulativeCurve.length = t + 1) ∧
      ∀ (t : ℕ) (h1 : t < (frames_data cfg).length)
        (h2 : t + 1 < (frames_data cfg).length),
        ((frames_data cfg).get ⟨t + 1, h2⟩).cumulativeCurve =
          ((frames_data cfg).get ⟨t, h1⟩).cumulativeCurve ++
            [((frames_data cfg).get ⟨t + 1, h2⟩).magnification] := by
  refine ⟨frames_data_length cfg, ?_, ?_⟩
  · intro t h
    rw [frames_data_get]
    refine ⟨rfl, ?_⟩
    show ((List.range (t + 1)).map (magnification_at cfg)).length = t + 1
    simp
  · intro t h1 h2
    simp only [frames_data_get]
    show (List.range (t + 1 + 1)).map (magnification_at cfg) =
      (List.range (t + 1)).map (magnification_at cfg) ++ [magnification_at cfg (t + 1)]
    rw [List.range_succ, List.map_append]
    rfl

/-- Witness for C5 at the boundary config with period 100: exactly 100 frames. -/
theorem frame_sequence_invariants_witness :
    ValidConfig ⟨100, 0.01, 90⟩ ∧ (frames_data ⟨100, 0.01, 90⟩).length = 100 := by
  have hv : ValidConfig ⟨100, 0.01, 90⟩ := by norm_num [ValidConfig]
  exact ⟨hv, (frame_sequence_invariants ⟨100, 0.01, 90⟩ hv).1⟩

/-- C6: the planet position at any in-range time index of a valid config is
`(R_ORBIT cos(2πt/period), R_ORBIT sin(2πt/period))`, its Euclidean norm is
exactly `R_ORBIT`; time 0 gives `(R_ORBIT, 0)` and, for period 200, time 50
gives `(0, R_ORBIT)`. -/
theorem planet_on_orbit_circle (cfg : SimulationConfig) (t : ℕ) (hv : ValidConfig cfg)
    (ht : t < cfg.orbital_period) :
    planet_position cfg.orbital_period t =
        ⟨R_ORBIT * Real.cos (2 * Real.pi * t / cfg.orbital_period),
         R_ORBIT * Real.sin (2 * Real.pi * t / cfg.orbital_period)⟩ ∧
      Vec2.norm (planet_position cfg.orbital_period t) = R_ORBIT ∧
      planet_position cfg.orbital_period 0 = ⟨R_ORBIT, 0⟩ ∧
      planet_position 200 50 = ⟨0, R_ORBIT⟩ := by
  refine ⟨rfl, planet_position_norm _ _, ?_, ?_⟩
  · rw [planet_position]
    have h0 : 2 * Real.pi * ((0 : ℕ) : ℝ) / (cfg.orbital_period : ℝ) = 0 := by simp
    rw [h0, Real.cos_zero, Real.sin_zero]
    simp only [Vec2.mk.injEq]
    exact ⟨mul_one _, mul_zero _⟩
  · rw [planet_position]
    rw [show 2 * Real.pi * ((50 : ℕ) : ℝ) / ((200 : ℕ) : ℝ) = Real.pi / 2 by
      push_cast; ring]
    rw [Real.cos_pi_div_two, Real.sin_pi_div_two]
    simp only [Vec2.mk.injEq]
    exact ⟨mul_zero _, mul_one _⟩

/-- Witness for C6 at the default config and time 0. -/
theorem planet_on_orbit_circle_witness :
    ValidConfig ⟨200, 0.01, 90⟩ ∧ 0 < 200 ∧
      Vec2.norm (planet_position 200 0) = R_ORBIT ∧
      planet_position 200 50 = ⟨0, R_ORBIT⟩ := by
  have hv : ValidConfig ⟨200, 0.01, 90⟩ := by norm_num [ValidConfig]
  have h := planet_on_orbit_circle ⟨200, 0.01, 90⟩ 0 hv (by norm_num)
  exact ⟨hv, by norm_num, h.2.1, h.2.2.2⟩

/-- C7: the magnification is monotonically non-decreasing in the planet-mass
parameter for fixed geometry, and for any period and observer angle, the peak
of the run with mass 0.1 strictly exceeds the peak of the run with mass 0.001. -/
theorem magnification_mono_in_mass :
    (∀ (p o s : Vec2) (m₁ m₂ : ℝ), 0 ≤ m₁ → m₁ ≤ m₂ →
        calculate_magnification p o s m₁ ≤ calculate_magnification p o s m₂) ∧
      ∀ (P : ℕ) (α : ℝ), 0 < P →
        pyMax (lightcurve_values ⟨P, 0.001, α⟩) <
          pyMax (lightcurve_values ⟨P, 0.1, α⟩) :=
  ⟨fun p o s _ _ h0 h12 => calculate_magnification_mono_mass p o s h0 h12,
   fun P α hP => pyMax_lightcurve_strict P α hP⟩

/-- Witness for C7 at concrete geometry and the default period and angle. -/
theorem magnification_mono_in_mass_witness :
    (0 : ℝ) ≤ 0.001 ∧ (0.001 : ℝ) ≤ 0.1 ∧ 0 < 200 ∧
      calculate_magnification ⟨5, 0⟩ ⟨0, 10⟩ star_pos 0.001 ≤
        calculate_magnification ⟨5, 0⟩ ⟨0, 10⟩ star_pos 0.1 ∧
      pyMax (lightcurve_values ⟨200, 0.001, 90⟩) <
        pyMax (lightcurve_values ⟨200, 0.1, 90⟩) :=
  ⟨by norm_num, by norm_num, by norm_num,
    magnification_mono_in_mass.1 ⟨5, 0⟩ ⟨0, 10⟩ star_pos 0.001 0.1 (by norm_num)
      (by norm_num),
    magnification_mono_in_mass.2 200 90 (by norm_num)⟩

/-- C8 (counterexample): at the valid config (100, 0.01, 90) the code's lower
axis bound `min(0.9, min(values) - 0.05)` differs from the spec's words
"minimum minus the padding, floored at 0.9", i.e. `max(0.9, min(values) - 0.05)`:
since all magnifications are at least 1 the code's bound is 0.9 while the
claimed one is at least 0.95. -/
theorem yaxis_claimed_counterexample :
    (yaxis_range ⟨100, 0.01, 90⟩).1 ≠ (yaxis_range_claimed ⟨100, 0.01, 90⟩).1 := by
  have h1 : 1 ≤ pyMin (lightcurve_values ⟨100, 0.01, 90⟩) :=
    one_le_pyMin_lightcurve _ (by norm_num)
  rw [yaxis_range, yaxis_range_claimed]
  show min 0.9 (pyMin (lightcurve_values ⟨100, 0.01, 90⟩) - 0.05) ≠
    max 0.9 (pyMin (lightcurve_values ⟨100, 0.01, 90⟩) - 0.05)
  rw [min_eq_left (by linarith), max_eq_right (by linarith)]
  intro h
  linarith [h]

/-- C8 (amended): the code's brightness-axis bounds are
`min(0.9, minMagnification - 0.05)` below and `max(1.5, maxMagnification + 0.05)`
above; the lower bound is capped above by (and, since magnifications are ≥ 1,
always equal to) the reference bound 0.9, and the upper bound is floored below
by the reference bound 1.5 while covering `maxMagnification + 0.05`. -/
theorem yaxis_range_bounds (cfg : SimulationConfig) (hv : ValidConfig cfg) :
    (yaxis_range cfg).1 = min 0.9 (pyMin (lightcurve_values cfg) - 0.05) ∧
      (yaxis_range cfg).2 = max 1.5 (pyMax (lightcurve_values cfg) + 0.05) ∧
      (yaxis_range cfg).1 = 0.9 ∧
      1.5 ≤ (yaxis_range cfg).2 ∧
      pyMax (lightcurve_values cfg) + 0.05 ≤ (yaxis_range cfg).2 := by
  have h100 := hv.1
  have hmin : 1 ≤ pyMin (lightcurve_values cfg) :=
    one_le_pyMin_lightcurve cfg (by omega)
  refine ⟨rfl, rfl, ?_, le_max_left _ _, le_max_right _ _⟩
  show min 0.9 (pyMin (lightcurve_values cfg) - 0.05) = 0.9
  exact min_eq_left (by linarith)

/-- Witness for the amended C8 at the period-100 boundary config. -/
theorem yaxis_range_bounds_witness :
    ValidConfig ⟨100, 0.01, 90⟩ ∧ (yaxis_range ⟨100, 0.01, 90⟩).1 = 0.9 := by
  have hv : ValidConfig ⟨100, 0.01, 90⟩ := by norm_num [ValidConfig]
  exact ⟨hv, (yaxis_range_bounds _ hv).2.2.1⟩

/-- C9 (counterexample): the pipeline performs no up-front rejection: for the
out-of-range period 50 (below the valid minimum 100) it still computes the
full 50-frame sequence instead of rejecting before any frame is computed. -/
theorem no_validation_counterexample :
    ¬ ValidConfig ⟨50, 0.01, 90⟩ ∧ (frames_data ⟨50, 0.01, 90⟩).length = 50 := by
  constructor
  · intro h
    exact absurd h.1 (by decide)
  · exact frames_data_length ⟨50, 0.01, 90⟩

/-- C9 (amended): the code contains no validation or rejection path at all:
for every config, in range or not, the frame builder totally computes the full
sequence of one frame per time index in `[0, orbitalPeriod)` (the slider
widgets alone constrain the parameters); in particular every valid config
fully succeeds. -/
theorem pipeline_total (cfg : SimulationConfig) :
    (frames_data cfg).length = cfg.orbital_period ∧
      ∀ (t : ℕ) (h : t < (frames_data cfg).length),
        ((frames_data cfg).get ⟨t, h⟩).timeIndex = t := by
  refine ⟨frames_data_length cfg, ?_⟩
  intro t h
  rw [frames_data_get]
  rfl

/-- Witness for the amended C9: the invalid period-50 config still yields its
full 50-frame sequence. -/
theorem pipeline_total_witness : (frames_data ⟨50, 0.01, 90⟩).length = 50 :=
  (pipeline_total ⟨50, 0.01, 90⟩).1

/-- C10: the impact parameter is the distance to the infinite observer-star
line: the magnification is invariant under reflecting the planet across that
line; concretely, the planet at `(0, -5)` (the far side of the star from the
observer at `(0, 10)`) has impact parameter 0, the magnification at time 150
of the default run equals the one at time 50, and time 150 is also a maximum
of the run — the curve has two equal peaks per orbit. -/
theorem impact_line_symmetry :
    (∀ (o p : Vec2) (m : ℝ), o.x ≠ 0 ∨ o.y ≠ 0 →
        calculate_magnification (reflect_across_line o p) o star_pos m =
          calculate_magnification p o star_pos m) ∧
      impact_u ⟨0, -5⟩ ⟨0, 10⟩ star_pos = 0 ∧
      magnification_at ⟨200, 0.01, 90⟩ 150 = magnification_at ⟨200, 0.01, 90⟩ 50 ∧
      ∀ x ∈ lightcurve_values ⟨200, 0.01, 90⟩,
        x ≤ magnification_at ⟨200, 0.01, 90⟩ 150 := by
  refine ⟨fun o p m ho => reflect_symmetry o p m ho, ?_, ?_, ?_⟩
  · rw [impact_u_90]
    show |(0 : ℝ)| / 0.5 = 0
    norm_num
  · rw [mag_default_150, mag_default_50]
  · intro x hx
    rw [lightcurve_values_eq] at hx
    obtain ⟨t, ht, rfl⟩ := List.mem_map.mp hx
    rw [mag_default_150]
    exact mag_default_le t (List.mem_range.mp ht)

/-- Witness for C10: the reflection symmetry applied at the observer `(0, 10)`
and planet `(3, 4)`. -/
theorem impact_line_symmetry_witness :
    ((0 : ℝ) ≠ 0 ∨ (10 : ℝ) ≠ 0) ∧
      calculate_magnification (reflect_across_line ⟨0, 10⟩ ⟨3, 4⟩) ⟨0, 10⟩ star_pos 0.01 =
        calculate_magnification ⟨3, 4⟩ ⟨0, 10⟩ star_pos 0.01 :=
  ⟨Or.inr (by norm_num),
    impact_line_symmetry.1 ⟨0, 10⟩ ⟨3, 4⟩ 0.01 (Or.inr (by norm_num))⟩
